import Mathlib

set_option maxRecDepth 20000

/-!
Verification of the V-Face matching core (matching/crypto_utils.py,
matching/qdrant_store.py, matching/main.py) against its design notes.

The embedding models the request-level behaviour of the three operations
(enroll, search, delete/revoke) and the decrypt pipeline.  Machine floats
are modelled as rationals; the square root used by L2 normalisation and
the cosine scoring function of the external vector index are parameters
(`Params`), since no claim depends on their numeric values.  The AES-GCM
primitive and the JSON deserialiser are likewise parameters: the claims
concern the control flow around them, not their internals.
-/

/-! ## Python string/number primitives used by the source -/

/-- Models Python `str.split(":")` on the character list of a string:
`"".split(":") == [""]`, separators produce empty segments. -/
def splitCols : List Char → List (List Char)
  | [] => [[]]
  | c :: rest =>
    match splitCols rest with
    | [] => [[]]
    | g :: gs => if c = ':' then [] :: g :: gs else (c :: g) :: gs

def isDigitCh (c : Char) : Bool := 48 ≤ c.toNat && c.toNat ≤ 57

def digitVal (c : Char) : ℕ := c.toNat - 48

/-- Digits of a Python integer literal after the first digit: decimal digits
with single underscores allowed between digits. -/
def digitsRest (acc : ℕ) : List Char → Option ℕ
  | [] => some acc
  | '_' :: rest =>
    match rest with
    | c :: rest2 => if isDigitCh c then digitsRest (acc * 10 + digitVal c) rest2 else none
    | [] => none
  | c :: rest => if isDigitCh c then digitsRest (acc * 10 + digitVal c) rest else none

/-- Nonempty digit run (first char must be a digit, no leading underscore). -/
def digitsVal : List Char → Option ℕ
  | [] => none
  | c :: rest => if isDigitCh c then digitsRest (digitVal c) rest else none

def isWsCh (c : Char) : Bool := c = ' ' || c = '\t' || c = '\n' || c = '\r'

def trimWs (cs : List Char) : List Char :=
  ((cs.dropWhile isWsCh).reverse.dropWhile isWsCh).reverse

/-- Models Python `int(s)` on a decimal string: surrounding whitespace is
stripped, one optional sign, then a nonempty digit run (underscores between
digits allowed); anything else raises ValueError (`none` here). -/
def pyIntOfChars (cs : List Char) : Option ℤ :=
  match trimWs cs with
  | '+' :: rest => (digitsVal rest).map (fun n => (n : ℤ))
  | '-' :: rest => (digitsVal rest).map (fun n => -(n : ℤ))
  | rest => (digitsVal rest).map (fun n => (n : ℤ))

def hexDigVal (c : Char) : Option ℕ :=
  if 48 ≤ c.toNat && c.toNat ≤ 57 then some (c.toNat - 48)
  else if 97 ≤ c.toNat && c.toNat ≤ 102 then some (c.toNat - 87)
  else if 65 ≤ c.toNat && c.toNat ≤ 70 then some (c.toNat - 55)
  else none

/-- Models Python `bytes.fromhex`: an even number of hex digits, two digits
per byte, most significant digit first.  (The whitespace-skipping corner of
`bytes.fromhex` is never exercised by fingerprints or key material here.) -/
def hexBytes : List Char → Option (List ℕ)
  | [] => some []
  | [_] => none
  | a :: b :: rest =>
    match hexDigVal a, hexDigVal b, hexBytes rest with
    | some x, some y, some bs => some ((16 * x + y) :: bs)
    | _, _, _ => none

/-- Big-endian value of a byte list, as in `int.from_bytes(bs, "big")`. -/
def beBytesNat (bs : List ℕ) : ℕ := bs.foldl (fun a b => 256 * a + b) 0

/-- Value of a hex digit string read most-significant-first (accumulator form). -/
def hexNatAux (acc : ℕ) : List Char → Option ℕ
  | [] => some acc
  | c :: rest =>
    match hexDigVal c with
    | some d => hexNatAux (16 * acc + d) rest
    | none => none

/-! ## crypto_utils.py -/

/-- The environment the key resolver reads: `VFACE_ENCRYPTION_KEY_V{n}`
per-version slots plus the unversioned fallback `VFACE_ENCRYPTION_KEY`. -/
structure KeyEnv where
  versionedKey : ℤ → Option String
  mainKey : Option String

/-- Python truthiness of an optional string: unset and `""` are falsy. -/
def truthyStr : Option String → Option String
  | some s => if s = "" then none else some s
  | none => none

inductive CryptoError where
  | unknownFormat (nParts : ℕ)
  | versionIntError (seg : String)
  | keyNotFound (version : ℤ)
  | malformedHex
  | authFailed
  | jsonError
deriving DecidableEq

/-- Models `_get_key(version)`: the versioned env slot if truthy, else the
unversioned fallback slot if truthy, else the "No encryption key found"
ValueError.  The key string is hex-decoded with `bytes.fromhex`. -/
def _get_key (env : KeyEnv) (version : ℤ) : Except CryptoError (List ℕ) :=
  match truthyStr (env.versionedKey version) with
  | some s =>
    match hexBytes s.data with
    | some bs => .ok bs
    | none => .error .malformedHex
  | none =>
    match truthyStr env.mainKey with
    | some s =>
      match hexBytes s.data with
      | some bs => .ok bs
      | none => .error .malformedHex
    | none => .error (.keyNotFound version)

structure PayloadParts where
  version : ℤ
  ivHex : List Char
  tagHex : List Char
  ctHex : List Char
deriving DecidableEq

/-- The parse stage of `decrypt_embedding`: split on `:`; a 4-segment payload
whose first segment starts with `v` takes its version from `int(seg[1:])`;
a 3-segment payload is version 1; anything else is the
"Unknown payload format" ValueError. -/
def parsePayload (payload : String) : Except CryptoError PayloadParts :=
  match splitCols payload.data with
  | [a, b, c, d] =>
    match a with
    | 'v' :: vrest =>
      match pyIntOfChars vrest with
      | some v => .ok ⟨v, b, c, d⟩
      | none => .error (.versionIntError (String.mk vrest))
    | _ => .error (.unknownFormat 4)
  | [a, b, c] => .ok ⟨1, a, b, c⟩
  | parts => .error (.unknownFormat parts.length)

/-- Abstract parameters of the model: the square root behind
`np.linalg.norm`, the cosine scoring of the vector index, the AES-GCM
decryption primitive (key → nonce → ciphertext‖tag → plaintext), and the
JSON deserialiser from plaintext bytes to a numeric vector. -/
structure Params where
  fsqrt : ℚ → ℚ
  score : List ℚ → List ℚ → ℚ
  aeadDecrypt : List ℕ → List ℕ → List ℕ → Option (List ℕ)
  jsonFloats : List ℕ → Option (List ℚ)

instance instDecEqExcept {ε α : Type} [DecidableEq ε] [DecidableEq α] :
    DecidableEq (Except ε α) := fun a b =>
  match a, b with
  | .ok x, .ok y =>
    if h : x = y then isTrue (by rw [h]) else isFalse (by intro hc; cases hc; exact h rfl)
  | .error x, .error y =>
    if h : x = y then isTrue (by rw [h]) else isFalse (by intro hc; cases hc; exact h rfl)
  | .ok _, .error _ => isFalse (by intro hc; cases hc)
  | .error _, .ok _ => isFalse (by intro hc; cases hc)

/-- Result of `decrypt_embedding` together with the observable side effects
on the plaintext buffer: whether plaintext bytes ever existed, and whether
`secure_zero` ran on them before the function exited. -/
structure DecryptOutcome where
  result : Except CryptoError (List ℚ)
  plaintextProduced : Bool
  plaintextScrubbed : Bool
deriving DecidableEq

/-- Models `decrypt_embedding`: parse, resolve key, hex-decode iv/tag/ct,
AEAD-decrypt `ct ++ tag`, JSON-parse the plaintext, then `secure_zero` the
plaintext.  `secure_zero` is reached only after a successful JSON parse. -/
def decrypt_embedding (P : Params) (env : KeyEnv) (payload : String) : DecryptOutcome :=
  match parsePayload payload with
  | .error e => ⟨.error e, false, false⟩
  | .ok pp =>
    match _get_key env pp.version with
    | .error e => ⟨.error e, false, false⟩
    | .ok key =>
      match hexBytes pp.ivHex, hexBytes pp.tagHex, hexBytes pp.ctHex with
      | some iv, some tag, some ct =>
        match P.aeadDecrypt key iv (ct ++ tag) with
        | none => ⟨.error .authFailed, false, false⟩
        | some pt =>
          match P.jsonFloats pt with
          | none => ⟨.error .jsonError, true, false⟩
          | some emb => ⟨.ok emb, true, true⟩
      | _, _, _ => ⟨.error .malformedHex, false, false⟩

/-! ## qdrant_store.py -/

/-- A stored point: the payload written by `upsert_embedding`
(`user_id`, `status`, `enrolled_at`, optional `metadata`) together with the
fingerprint the store adds to it, and the point's vector. -/
structure StoreRecord where
  fingerprint : String
  vector : List ℚ
  userId : String
  status : String
  enrolledAt : ℕ
  meta : Option (List (String × String))
deriving DecidableEq

/-- The collection: points keyed by the numeric point id. -/
abbrev Store := List (ℕ × StoreRecord)

def lookupStore (k : ℕ) : Store → Option StoreRecord
  | [] => none
  | (k2, r) :: rest => if k2 = k then some r else lookupStore k rest

/-- Qdrant upsert: replace the point with this id, or add it. -/
def upsertStore (k : ℕ) (r : StoreRecord) : Store → Store
  | [] => [(k, r)]
  | (k2, r2) :: rest =>
    if k2 = k then (k, r) :: rest else (k2, r2) :: upsertStore k r rest

def setRevoked (r : StoreRecord) : StoreRecord := { r with status := "revoked" }

/-- Qdrant `set_payload {"status": "revoked"}` on one point id: merges the
status field into the payload of the point with that id (a no-op when the
id is absent), leaving vector and remaining payload intact. -/
def revokeStore (k : ℕ) (s : Store) : Store :=
  s.map (fun p => if p.1 = k then (p.1, setRevoked p.2) else p)

/-- The numeric point id of `upsert_embedding`/`delete_vector`:
`int.from_bytes(bytes.fromhex(fingerprint[:16]), "big")`; `none` models the
ValueError raised when the prefix is not valid hex. -/
def numericId (fp : String) : Option ℕ :=
  (hexBytes (fp.data.take 16)).map beBytesNat

def recOf (fp : String) (v : List ℚ) (userId status : String) (enrolledAt : ℕ)
    (meta : Option (List (String × String))) : StoreRecord :=
  ⟨fp, v, userId, status, enrolledAt, meta⟩

/-- The payload dict built by `enroll` before `upsert_embedding` adds the
fingerprint key. -/
structure PayloadFields where
  userId : String
  status : String
  enrolledAt : ℕ
  meta : Option (List (String × String))
deriving DecidableEq

/-- Models `upsert_embedding`: derive the numeric id from the fingerprint
and write (or overwrite) that single point, payload extended with the
fingerprint.  `none` models the hex ValueError propagating. -/
def upsert_embedding (s : Store) (pointId : String) (vector : List ℚ)
    (pl : PayloadFields) : Option (ℕ × Store) :=
  (numericId pointId).map
    (fun k => (k, upsertStore k (recOf pointId vector pl.userId pl.status pl.enrolledAt pl.meta) s))

/-- Models `delete_vector`: derive the numeric id and set
`status = "revoked"` on that point. -/
def delete_vector (s : Store) (fp : String) : Option Store :=
  (numericId fp).map (fun k => revokeStore k s)

/-- A search hit as returned by `search_similar`: fingerprint and user id
from the payload, score rounded to 4 digits. -/
structure Hit where
  fingerprint : String
  userId : String
  score : ℚ
deriving DecidableEq

/-- Models Python `round(x, 4)`.  (Python rounds exact halves to even;
no claim exercises an exact half, so round-half-up is used.) -/
def round4 (x : ℚ) : ℚ := (round (x * 10000) : ℤ) / 10000

def insertByScore (x : StoreRecord × ℚ) : List (StoreRecord × ℚ) → List (StoreRecord × ℚ)
  | [] => [x]
  | y :: ys => if y.2 < x.2 then x :: y :: ys else y :: insertByScore x ys

/-- Stable sort by descending score, modelling the ranking of
`query_points`. -/
def sortByScore (l : List (StoreRecord × ℚ)) : List (StoreRecord × ℚ) :=
  l.foldr insertByScore []

/-- Models `search_similar`: rank the points whose payload has
`status = "active"` by similarity to the query, keep those whose score is
at least `score_threshold`, return at most `top_k` of them as hits. -/
def search_similar (P : Params) (s : Store) (queryVector : List ℚ)
    (threshold : ℚ) (topK : ℕ) : List Hit :=
  let actives := s.filter (fun p => decide (p.2.status = "active"))
  let scored := actives.map (fun p => (p.2, P.score queryVector p.2.vector))
  let passing := scored.filter (fun x => decide (threshold ≤ x.2))
  ((sortByScore passing).take topK).map (fun x => ⟨x.1.fingerprint, x.1.userId, round4 x.2⟩)

/-! ## main.py -/

/-- Service configuration: `SIMILARITY_THRESHOLD`. -/
structure Config where
  simThreshold : ℚ
deriving DecidableEq

inductive ServiceError where
  | dimensionMismatch (got : ℕ)
  | duplicateIdentity (score : ℚ) (fpPref : String)
  | internalErr (e : CryptoError)
deriving DecidableEq

structure EnrollRequest where
  fingerprint : String
  encrypted_embedding : String
  user_id : Option String
  metadata : Option (List (String × String))
deriving DecidableEq

structure EnrollResponse where
  success : Bool
  fingerprint : String
  vector_dim : ℕ
deriving DecidableEq

/-- Python `a or b` on an optional string (`None` and `""` are falsy). -/
def pyOrStr (o : Option String) (dflt : String) : String :=
  match o with
  | some s => if s = "" then dflt else s
  | none => dflt

/-- Python truthiness of the optional metadata dict (`None` and `{}` falsy). -/
def pyTruthyMeta (o : Option (List (String × String))) : Option (List (String × String)) :=
  match o with
  | some [] => none
  | some m => some m
  | none => none

/-- The payload `enroll` builds at step 5. -/
def enrollPayload (req : EnrollRequest) (now : ℕ) : PayloadFields :=
  ⟨pyOrStr req.user_id req.fingerprint, "active", now, pyTruthyMeta req.metadata⟩

/-- L2 normalisation of `enroll`/`search` steps 2-3: divide by the norm when
it is positive, pass the vector through unchanged otherwise. -/
def normSq (v : List ℚ) : ℚ := (v.map (fun x => x * x)).sum

def normalizeVec (P : Params) (v : List ℚ) : List ℚ :=
  let n := P.fsqrt (normSq v)
  if 0 < n then v.map (fun x => x / n) else v

/-- The record a successful enroll stores. -/
def enrollRecord (req : EnrollRequest) (vec : List ℚ) (now : ℕ) : StoreRecord :=
  recOf req.fingerprint vec (pyOrStr req.user_id req.fingerprint) "active" now
    (pyTruthyMeta req.metadata)

/-- Outcome of the `/enroll` handler: HTTP-level result, the store after the
request, the arguments of the anti-duplicate `search_similar` call and of the
`upsert_embedding` call when those calls were made, and whether `vec.fill(0)`
ran before the handler exited. -/
structure EnrollOutcome where
  result : Except ServiceError EnrollResponse
  store : Store
  dupQuery : Option (List ℚ × ℚ × ℕ)
  upsertAttempt : Option (String × List ℚ × PayloadFields)
  vecZeroed : Bool
  dec : DecryptOutcome
deriving DecidableEq

/-- Models the `/enroll` handler: decrypt, 128-dimension gate, normalise,
anti-duplicate `search_similar` at the enrollment threshold with `top_k = 1`,
then `upsert_embedding` and `vec.fill(0)`.  The 409 carries only the top
hit's score and the first 8 characters of its fingerprint. -/
def enroll (P : Params) (cfg : Config) (env : KeyEnv) (s : Store) (now : ℕ)
    (req : EnrollRequest) : EnrollOutcome :=
  let d := decrypt_embedding P env req.encrypted_embedding
  match d.result with
  | .error e => ⟨.error (.internalErr e), s, none, none, false, d⟩
  | .ok emb =>
    if emb.length ≠ 128 then
      ⟨.error (.dimensionMismatch emb.length), s, none, none, false, d⟩
    else
      let vec := normalizeVec P emb
      match search_similar P s vec cfg.simThreshold 1 with
      | dup :: _ =>
        ⟨.error (.duplicateIdentity dup.score (String.mk (dup.fingerprint.data.take 8))), s,
          some (vec, cfg.simThreshold, 1), none, false, d⟩
      | [] =>
        match upsert_embedding s req.fingerprint vec (enrollPayload req now) with
        | some (_, s2) =>
          ⟨.ok ⟨true, req.fingerprint, 128⟩, s2, some (vec, cfg.simThreshold, 1),
            some (req.fingerprint, vec, enrollPayload req now), true, d⟩
        | none =>
          ⟨.error (.internalErr .malformedHex), s, some (vec, cfg.simThreshold, 1),
            some (req.fingerprint, vec, enrollPayload req now), false, d⟩

structure SearchRequest where
  encrypted_embedding : String
  threshold : Option ℚ
  top_k : ℕ
deriving DecidableEq

structure SearchResponse where
  matched : Bool
  results : List Hit
deriving DecidableEq

/-- Outcome of the `/search` handler: result, the arguments passed to
`search_similar` when the store was queried, and whether `vec.fill(0)` ran
before the handler exited.  (Wall-clock timing is not modelled.) -/
structure SearchOutcome where
  result : Except ServiceError SearchResponse
  storeQuery : Option (List ℚ × ℚ × ℕ)
  vecZeroed : Bool
  dec : DecryptOutcome
deriving DecidableEq

/-- Python `req.threshold or SIMILARITY_THRESHOLD`: `None` and `0.0` both
fall back to the default. -/
def pyOrThreshold (o : Option ℚ) (dflt : ℚ) : ℚ :=
  match o with
  | some t => if t = 0 then dflt else t
  | none => dflt

/-- Models the `/search` handler: decrypt, normalise (no dimension gate),
query the store with `req.threshold or SIMILARITY_THRESHOLD` and the
requested `top_k`, zero the vector, report `matched = len(results) > 0`. -/
def search (P : Params) (cfg : Config) (env : KeyEnv) (s : Store)
    (req : SearchRequest) : SearchOutcome :=
  let d := decrypt_embedding P env req.encrypted_embedding
  match d.result with
  | .error e => ⟨.error (.internalErr e), none, false, d⟩
  | .ok emb =>
    let vec := normalizeVec P emb
    let th := pyOrThreshold req.threshold cfg.simThreshold
    let rs := search_similar P s vec th req.top_k
    ⟨.ok ⟨decide (0 < rs.length), rs⟩, some (vec, th, req.top_k), true, d⟩

structure DeleteOutcome where
  result : Except ServiceError (Bool × String)
  store : Store
deriving DecidableEq

/-- Models the `/delete` handler: `delete_vector`, then
`{"success": True, "fingerprint": fp}`; a hex ValueError becomes a 500. -/
def delete (s : Store) (fp : String) : DeleteOutcome :=
  match delete_vector s fp with
  | some s2 => ⟨.ok (true, fp), s2⟩
  | none => ⟨.error (.internalErr .malformedHex), s⟩

/-! ## Request traces -/

inductive Op where
  | opEnroll (now : ℕ) (req : EnrollRequest)
  | opSearch (req : SearchRequest)
  | opDelete (fp : String)
deriving DecidableEq

/-- Effect of one handled request on the store. -/
def stepOp (P : Params) (cfg : Config) (env : KeyEnv) (s : Store) : Op → Store
  | .opEnroll now req => (enroll P cfg env s now req).store
  | .opSearch _ => s
  | .opDelete fp => (delete s fp).store

def runOps (P : Params) (cfg : Config) (env : KeyEnv) (s : Store) (ops : List Op) : Store :=
  ops.foldl (stepOp P cfg env) s

/-- Well-formedness maintained by the pipeline: every point sits at the id
derived from its own fingerprint. -/
def wfStore (s : Store) : Bool :=
  s.all (fun p => decide (numericId p.2.fingerprint = some p.1))

/-- Does this operation enroll a fingerprint whose storage key is `k`? -/
def enrollsAtKey (k : ℕ) : Op → Bool
  | .opEnroll _ req => decide (numericId req.fingerprint = some k)
  | _ => false

/-- Every point with id `k` is revoked. -/
def keyRevokedIn (k : ℕ) (s : Store) : Bool :=
  s.all (fun p => !(decide (p.1 = k)) || decide (p.2.status = "revoked"))

/-! ## Concrete fixtures

A pointwise instantiation of the abstract parameters, used to evaluate the
pipeline on concrete requests: the AEAD and JSON functions are finite
lookup tables consistent with a fixed key/nonce, the scoring function
grants similarity 1 to an exact vector match and 0 otherwise (the cosine
similarity of identical unit vectors is 1), and the square-root parameter
is the zero function, making normalisation the identity (the fixture
vectors already have unit norm). -/

/-- A 128-dimensional unit vector. -/
def vecE1 : List ℚ := 1 :: List.replicate 127 0

/-- A 2-dimensional vector (wrong dimension for the collection). -/
def vecDim2 : List ℚ := [3, 4]

def aeadT (key iv data : List ℕ) : Option (List ℕ) :=
  if key = [170] && iv = [170] && data = [204, 187] then some [1]
  else if key = [170] && iv = [170] && data = [205, 187] then some [2]
  else none

def jsonT (bs : List ℕ) : Option (List ℚ) :=
  if bs = [1] then some vecE1
  else if bs = [2] then some vecDim2
  else none

def Ptest : Params :=
  ⟨fun _ => 0, fun q v => if q = v then 1 else 0, aeadT, jsonT⟩

/-- Only the unversioned fallback key `VFACE_ENCRYPTION_KEY = "aa"` is set. -/
def envT : KeyEnv := ⟨fun _ => none, some "aa"⟩

/-- Same slots as `envT` at version 1 and fallback, plus an unrelated
version-5 key. -/
def envT5 : KeyEnv := ⟨fun v => if v = 5 then some "bb" else none, some "aa"⟩

/-- No key material at all. -/
def envNone : KeyEnv := ⟨fun _ => none, none⟩

def cfgT : Config := ⟨1⟩

/-- Legacy 3-field payload decrypting to `vecE1` under `envT`/`Ptest`. -/
def pA : String := "aa:bb:cc"

/-- Legacy 3-field payload decrypting to the 2-dimensional `vecDim2`. -/
def pB : String := "aa:bb:cd"

def fpA : String := "aaaaaaaaaaaaaaaaaaaaaaaaaaaaaaaaaaaaaaaaaaaaaaaaaaaaaaaaaaaaaaaa"

/-- Same first 16 hex characters as `fpA`, different afterwards. -/
def fpB : String := "aaaaaaaaaaaaaaaabbbbbbbbbbbbbbbbbbbbbbbbbbbbbbbbbbbbbbbbbbbbbbbb"

/-- The storage key both `fpA` and `fpB` derive. -/
def kA : ℕ := beBytesNat (List.replicate 8 170)

/-- The record the fixture enroll of `reqA` stores (at `now = 0`). -/
def recA : StoreRecord := recOf fpA vecE1 fpA "active" 0 none

/-- The record a re-enroll of `reqA` at `now = 7` stores. -/
def recA7 : StoreRecord := recOf fpA vecE1 fpA "active" 7 none

def reqA : EnrollRequest := ⟨fpA, pA, none, none⟩

def reqB : EnrollRequest := ⟨fpB, pA, none, none⟩

/-- Enroll request whose payload decrypts to the 2-dimensional `vecDim2`. -/
def reqDim : EnrollRequest := ⟨fpA, pB, none, none⟩

def sreqA : SearchRequest := ⟨pA, none, 1⟩

def sreqZero : SearchRequest := ⟨pA, some 0, 1⟩

def sreqTwo : SearchRequest := ⟨pA, some 2, 1⟩

def sreqB : SearchRequest := ⟨pB, none, 1⟩

/-! ## Store lemmas -/

theorem lookupStore_upsertStore (k k2 : ℕ) (r : StoreRecord) (s : Store) :
    lookupStore k (upsertStore k2 r s) = if k2 = k then some r else lookupStore k s := by
  induction s with
  | nil => by_cases h : k2 = k <;> simp [upsertStore, lookupStore, h]
  | cons p rest ih =>
    obtain ⟨k3, r3⟩ := p
    by_cases h32 : k3 = k2
    · subst h32
      by_cases h3k : k3 = k <;> simp [upsertStore, lookupStore, h3k]
    · by_cases h3k : k3 = k
      · subst h3k
        have hk2 : k2 ≠ k3 := fun h => h32 h.symm
        simp [upsertStore, lookupStore, h32, hk2]
      · simp [upsertStore, lookupStore, h32, h3k, ih]

theorem revokeStore_cons (k2 k3 : ℕ) (r3 : StoreRecord) (rest : Store) :
    revokeStore k2 ((k3, r3) :: rest)
      = (if k3 = k2 then (k3, setRevoked r3) else (k3, r3)) :: revokeStore k2 rest := by
  by_cases h : k3 = k2 <;> simp [revokeStore, h]

theorem lookupStore_revokeStore (k k2 : ℕ) (s : Store) :
    lookupStore k (revokeStore k2 s) =
      if k2 = k then (lookupStore k s).map setRevoked else lookupStore k s := by
  induction s with
  | nil => by_cases h : k2 = k <;> simp [revokeStore, lookupStore, h]
  | cons p rest ih =>
    obtain ⟨k3, r3⟩ := p
    by_cases h32 : k3 = k2
    · subst h32
      rw [revokeStore_cons, if_pos rfl]
      by_cases h3k : k3 = k
      · subst h3k
        simp [lookupStore]
      · simp [lookupStore, h3k, ih]
    · rw [revokeStore_cons, if_neg h32]
      by_cases h3k : k3 = k
      · subst h3k
        have hk2 : k2 ≠ k3 := fun h => h32 h.symm
        simp [lookupStore, ih, hk2]
      · simp [lookupStore, h3k, h32, ih]

theorem revokeStore_of_lookup_none (k : ℕ) (s : Store) (h : lookupStore k s = none) :
    revokeStore k s = s := by
  induction s with
  | nil => simp [revokeStore]
  | cons p rest ih =>
    obtain ⟨k2, r2⟩ := p
    by_cases h2 : k2 = k
    · simp [lookupStore, h2] at h
    · simp only [lookupStore, if_neg h2] at h
      simp [revokeStore, h2] at ih ⊢
      exact ih h

theorem mem_upsertStore {p : ℕ × StoreRecord} {k : ℕ} {r : StoreRecord} {s : Store}
    (h : p ∈ upsertStore k r s) : p = (k, r) ∨ p ∈ s := by
  induction s with
  | nil => simpa [upsertStore] using h
  | cons q rest ih =>
    obtain ⟨k2, r2⟩ := q
    by_cases h2 : k2 = k
    · simp only [upsertStore, if_pos h2, List.mem_cons] at h
      rcases h with h | h
      · exact Or.inl h
      · exact Or.inr (List.mem_cons_of_mem _ h)
    · simp only [upsertStore, if_neg h2, List.mem_cons] at h
      rcases h with h | h
      · exact Or.inr (List.mem_cons.2 (Or.inl h))
      · rcases ih h with h | h
        · exact Or.inl h
        · exact Or.inr (List.mem_cons_of_mem _ h)

theorem lookupStore_eq_none_iff {k : ℕ} {s : Store} :
    lookupStore k s = none ↔ ∀ p ∈ s, p.1 ≠ k := by
  induction s with
  | nil => simp [lookupStore]
  | cons p rest ih =>
    obtain ⟨k2, r2⟩ := p
    by_cases h2 : k2 = k <;> simp [lookupStore, h2, ih]

/-! ## Search lemmas -/

theorem mem_insertByScore {y x : StoreRecord × ℚ} {l : List (StoreRecord × ℚ)} :
    y ∈ insertByScore x l ↔ y = x ∨ y ∈ l := by
  induction l with
  | nil => simp [insertByScore]
  | cons z zs ih =>
    by_cases h : z.2 < x.2
    · simp [insertByScore, h, List.mem_cons]
    · simp only [insertByScore, if_neg h, List.mem_cons, ih]
      tauto

theorem mem_sortByScore {y : StoreRecord × ℚ} {l : List (StoreRecord × ℚ)} :
    y ∈ sortByScore l ↔ y ∈ l := by
  induction l with
  | nil => simp [sortByScore]
  | cons z zs ih =>
    simp only [sortByScore, List.foldr_cons] at *
    rw [mem_insertByScore, ih, List.mem_cons]

theorem length_insertByScore (x : StoreRecord × ℚ) (l : List (StoreRecord × ℚ)) :
    (insertByScore x l).length = l.length + 1 := by
  induction l with
  | nil => simp [insertByScore]
  | cons z zs ih =>
    by_cases h : z.2 < x.2 <;> simp [insertByScore, h, ih]

theorem length_sortByScore (l : List (StoreRecord × ℚ)) :
    (sortByScore l).length = l.length := by
  induction l with
  | nil => simp [sortByScore]
  | cons z zs ih =>
    simp only [sortByScore, List.foldr_cons] at *
    rw [length_insertByScore, ih, List.length_cons]

theorem mem_search_similar {P : Params} {s : Store} {q : List ℚ} {th : ℚ} {n : ℕ}
    {h : Hit} (hm : h ∈ search_similar P s q th n) :
    ∃ p ∈ s, p.2.status = "active" ∧ th ≤ P.score q p.2.vector ∧
      h = ⟨p.2.fingerprint, p.2.userId, round4 (P.score q p.2.vector)⟩ := by
  unfold search_similar at hm
  obtain ⟨x, hx, rfl⟩ := List.mem_map.1 hm
  have hx2 := List.mem_of_mem_take hx
  rw [mem_sortByScore] at hx2
  obtain ⟨hx3, hx4⟩ := List.mem_filter.1 hx2
  obtain ⟨p, hp, rfl⟩ := List.mem_map.1 hx3
  obtain ⟨hp1, hp2⟩ := List.mem_filter.1 hp
  refine ⟨p, hp1, by simpa using hp2, by simpa using hx4, rfl⟩

theorem search_similar_ne_nil_iff (P : Params) (s : Store) (q : List ℚ) (th : ℚ)
    {n : ℕ} (hn : n ≠ 0) :
    search_similar P s q th n ≠ [] ↔
      ∃ p ∈ s, p.2.status = "active" ∧ th ≤ P.score q p.2.vector := by
  constructor
  · intro hne
    obtain ⟨h, hh⟩ := List.exists_mem_of_ne_nil _ hne
    obtain ⟨p, hp, hact, hsc, _⟩ := mem_search_similar hh
    exact ⟨p, hp, hact, hsc⟩
  · rintro ⟨p, hp, hact, hsc⟩
    have hpass :
        (p.2, P.score q p.2.vector) ∈
          ((s.filter (fun p => decide (p.2.status = "active"))).map
              (fun p => (p.2, P.score q p.2.vector))).filter
            (fun x => decide (th ≤ x.2)) := by
      refine List.mem_filter.2 ⟨List.mem_map.2 ⟨p, List.mem_filter.2 ⟨hp, by simpa using hact⟩, rfl⟩, by simpa using hsc⟩
    intro hcon
    have hlen := congrArg List.length hcon
    simp only [search_similar, List.length_map, List.length_take, length_sortByScore,
      List.length_nil] at hlen
    rcases Nat.min_eq_zero_iff.1 hlen with h0 | h0
    · exact hn h0
    · rw [List.length_eq_zero] at h0
      rw [h0] at hpass
      simp at hpass

/-! ## Trace invariants -/

theorem wfStore_iff {s : Store} :
    wfStore s = true ↔ ∀ p ∈ s, numericId p.2.fingerprint = some p.1 := by
  simp [wfStore, List.all_eq_true]

theorem keyRevokedIn_iff {k : ℕ} {s : Store} :
    keyRevokedIn k s = true ↔ ∀ p ∈ s, p.1 = k → p.2.status = "revoked" := by
  simp only [keyRevokedIn, List.all_eq_true, Bool.or_eq_true, Bool.not_eq_true',
    decide_eq_true_eq, decide_eq_false_iff_not]
  constructor
  · intro h p hp hk
    rcases h p hp with h1 | h1
    · exact absurd hk h1
    · exact h1
  · intro h p hp
    by_cases hk : p.1 = k
    · exact Or.inr (h p hp hk)
    · exact Or.inl hk

theorem mem_revokeStore {p : ℕ × StoreRecord} {k : ℕ} {s : Store}
    (h : p ∈ revokeStore k s) :
    ∃ q ∈ s, p = (if q.1 = k then (q.1, setRevoked q.2) else q) := by
  obtain ⟨q, hq, rfl⟩ := List.mem_map.1 h
  exact ⟨q, hq, rfl⟩

theorem wf_revokeStore {k : ℕ} {s : Store}
    (hwf : ∀ p ∈ s, numericId p.2.fingerprint = some p.1) :
    ∀ p ∈ revokeStore k s, numericId p.2.fingerprint = some p.1 := by
  intro p hp
  obtain ⟨q, hq, rfl⟩ := mem_revokeStore hp
  by_cases h : q.1 = k <;> simp [h, setRevoked, hwf q hq]

theorem wf_upsertStore {k : ℕ} {r : StoreRecord} {s : Store}
    (hwf : ∀ p ∈ s, numericId p.2.fingerprint = some p.1)
    (hr : numericId r.fingerprint = some k) :
    ∀ p ∈ upsertStore k r s, numericId p.2.fingerprint = some p.1 := by
  intro p hp
  rcases mem_upsertStore hp with h | h
  · subst h; exact hr
  · exact hwf p h

theorem keyRevoked_upsertStore {k k2 : ℕ} {r : StoreRecord} {s : Store}
    (h : ∀ p ∈ s, p.1 = k → p.2.status = "revoked") (hne : k2 ≠ k) :
    ∀ p ∈ upsertStore k2 r s, p.1 = k → p.2.status = "revoked" := by
  intro p hp hk
  rcases mem_upsertStore hp with h2 | h2
  · subst h2; exact absurd hk hne
  · exact h p h2 hk

theorem keyRevoked_revokeStore {k k2 : ℕ} {s : Store}
    (h : ∀ p ∈ s, p.1 = k → p.2.status = "revoked") :
    ∀ p ∈ revokeStore k2 s, p.1 = k → p.2.status = "revoked" := by
  intro p hp hk
  obtain ⟨q, hq, rfl⟩ := mem_revokeStore hp
  by_cases h2 : q.1 = k2
  · simp [h2, setRevoked]
  · simp only [if_neg h2] at hk ⊢
    exact h q hq hk

theorem keyRevoked_revokeStore_self (k : ℕ) (s : Store) :
    ∀ p ∈ revokeStore k s, p.1 = k → p.2.status = "revoked" := by
  intro p hp hk
  obtain ⟨q, hq, rfl⟩ := mem_revokeStore hp
  by_cases h2 : q.1 = k
  · simp [h2, setRevoked]
  · simp only [if_neg h2] at hk
    exact absurd hk h2

/-- The store `enroll` leaves behind: unchanged, unless the anti-duplicate
check passed and the fingerprint's key was derivable, in which case the new
record is upserted at that key. -/
theorem enroll_store_cases (P : Params) (cfg : Config) (env : KeyEnv) (s : Store)
    (now : ℕ) (req : EnrollRequest) :
    (enroll P cfg env s now req).store = s ∨
      ∃ k emb, numericId req.fingerprint = some k ∧
        (decrypt_embedding P env req.encrypted_embedding).result = .ok emb ∧
        (enroll P cfg env s now req).store
          = upsertStore k (enrollRecord req (normalizeVec P emb) now) s := by
  unfold enroll
  dsimp only
  split
  · exact Or.inl rfl
  next emb hd =>
    split
    next hlen => exact Or.inl rfl
    next hlen =>
      split
      next dup rest hs => exact Or.inl rfl
      next hs =>
        split
        next k s2 hu =>
          simp only [upsert_embedding, Option.map_eq_some'] at hu
          obtain ⟨k2, hk2, heq⟩ := hu
          obtain ⟨h1, h2⟩ := Prod.mk.injEq .. ▸ heq
          exact Or.inr ⟨k, emb, by rw [hk2, h1], hd, by rw [← h2, ← h1]; rfl⟩
        next hu => exact Or.inl rfl

/-- The store `delete` leaves behind: revocation at the derived key, or
unchanged when the fingerprint prefix fails to hex-decode. -/
theorem delete_store_cases (s : Store) (fp : String) :
    (delete s fp).store = s ∨
      ∃ k, numericId fp = some k ∧ (delete s fp).store = revokeStore k s := by
  unfold delete delete_vector
  cases hk : numericId fp with
  | none => simp
  | some k => exact Or.inr ⟨k, rfl, by simp⟩

theorem wf_stepOp (P : Params) (cfg : Config) (env : KeyEnv) (s : Store) (op : Op)
    (hwf : wfStore s = true) : wfStore (stepOp P cfg env s op) = true := by
  rw [wfStore_iff] at hwf ⊢
  cases op with
  | opSearch req => exact hwf
  | opDelete fp =>
    simp only [stepOp]
    rcases delete_store_cases s fp with h | ⟨k, _, h⟩
    · rw [h]; exact hwf
    · rw [h]; exact wf_revokeStore hwf
  | opEnroll now req =>
    simp only [stepOp]
    rcases enroll_store_cases P cfg env s now req with h | ⟨k, emb, hk, _, h⟩
    · rw [h]; exact hwf
    · rw [h]
      exact wf_upsertStore hwf (by simpa [enrollRecord, recOf] using hk)

theorem keyRevoked_stepOp (P : Params) (cfg : Config) (env : KeyEnv) (s : Store)
    (op : Op) (k : ℕ) (h : keyRevokedIn k s = true)
    (hne : enrollsAtKey k op = false) : keyRevokedIn k (stepOp P cfg env s op) = true := by
  rw [keyRevokedIn_iff] at h ⊢
  cases op with
  | opSearch req => exact h
  | opDelete fp =>
    simp only [stepOp]
    rcases delete_store_cases s fp with heq | ⟨k2, _, heq⟩
    · rw [heq]; exact h
    · rw [heq]; exact keyRevoked_revokeStore h
  | opEnroll now req =>
    simp only [enrollsAtKey, decide_eq_false_iff_not] at hne
    simp only [stepOp]
    rcases enroll_store_cases P cfg env s now req with heq | ⟨k2, emb, hk2, _, heq⟩
    · rw [heq]; exact h
    · rw [heq]
      refine keyRevoked_upsertStore h (fun hc => hne ?_)
      rw [hk2, hc]

theorem wf_runOps (P : Params) (cfg : Config) (env : KeyEnv) (ops : List Op) :
    ∀ s : Store, wfStore s = true → wfStore (runOps P cfg env s ops) = true := by
  induction ops with
  | nil => intro s h; simpa [runOps] using h
  | cons op ops ih =>
    intro s h
    have : runOps P cfg env s (op :: ops) = runOps P cfg env (stepOp P cfg env s op) ops := by
      simp [runOps]
    rw [this]
    exact ih _ (wf_stepOp P cfg env s op h)

theorem keyRevoked_runOps (P : Params) (cfg : Config) (env : KeyEnv) (k : ℕ)
    (ops : List Op) :
    ∀ s : Store, keyRevokedIn k s = true →
      ops.all (fun op => !(enrollsAtKey k op)) = true →
      keyRevokedIn k (runOps P cfg env s ops) = true := by
  induction ops with
  | nil => intro s h _; simpa [runOps] using h
  | cons op ops ih =>
    intro s h hall
    simp only [List.all_cons, Bool.and_eq_true, Bool.not_eq_true'] at hall
    have hstep : runOps P cfg env s (op :: ops) = runOps P cfg env (stepOp P cfg env s op) ops := by
      simp [runOps]
    rw [hstep]
    refine ih _ (keyRevoked_stepOp P cfg env s op k h hall.1) ?_
    simp only [List.all_eq_true, Bool.not_eq_true']
    intro x hx
    have := hall.2
    simp only [List.all_eq_true, Bool.not_eq_true'] at this
    exact this x hx

/-! ## Key derivation lemmas -/

theorem hexBytes_natVal : ∀ (cs : List Char) (acc : ℕ) (bs : List ℕ),
    hexBytes cs = some bs →
    hexNatAux acc cs = some (bs.foldl (fun a b => 256 * a + b) acc)
  | [], acc, bs => by
    intro h
    simp only [hexBytes, Option.some.injEq] at h
    subst h
    simp [hexNatAux]
  | [_], acc, bs => by
    intro h
    simp [hexBytes] at h
  | a :: b :: rest, acc, bs => by
    intro h
    cases ha : hexDigVal a with
    | none => simp [hexBytes, ha] at h
    | some x =>
      cases hb : hexDigVal b with
      | none => simp [hexBytes, ha, hb] at h
      | some y =>
        cases hr : hexBytes rest with
        | none => simp [hexBytes, ha, hb, hr] at h
        | some bs2 =>
          simp only [hexBytes, ha, hb, hr, Option.some.injEq] at h
          subst h
          have ih := hexBytes_natVal rest (16 * (16 * acc + x) + y) bs2 hr
          simp only [hexNatAux, ha, hb]
          rw [ih]
          congr 1
          simp only [List.foldl_cons]
          congr 1
          ring

theorem length_upsertStore_of_mem {k : ℕ} {r : StoreRecord} {s : Store}
    (h : lookupStore k s ≠ none) : (upsertStore k r s).length = s.length := by
  induction s with
  | nil => simp [lookupStore] at h
  | cons p rest ih =>
    obtain ⟨k2, r2⟩ := p
    by_cases h2 : k2 = k
    · simp [upsertStore, h2]
    · simp only [lookupStore, if_neg h2] at h
      simp [upsertStore, h2, ih h]

/-- Claim C9: the storage key is the first 16 hex characters of the
fingerprint read as a big-endian unsigned integer; fingerprints sharing that
prefix share the key, upsert and revoke derive the same key, and a prefix
collision overwrites the single record at that key instead of creating a
second one. -/
theorem storage_key_determinism (fp1 fp2 : String) (s : Store) (v1 : List ℚ)
    (p1 : PayloadFields) (r1 r2 : StoreRecord) (k : ℕ)
    (h16 : fp1.data.take 16 = fp2.data.take 16)
    (hk : numericId fp1 = some k) :
    numericId fp2 = some k ∧
    hexNatAux 0 (fp1.data.take 16) = some k ∧
    upsert_embedding s fp1 v1 p1
      = some (k, upsertStore k (recOf fp1 v1 p1.userId p1.status p1.enrolledAt p1.meta) s) ∧
    delete_vector s fp2 = some (revokeStore k s) ∧
    lookupStore k (upsertStore k r2 (upsertStore k r1 s)) = some r2 ∧
    (upsertStore k r2 (upsertStore k r1 s)).length = (upsertStore k r1 s).length := by
  have hk2 : numericId fp2 = some k := by
    rw [numericId, ← h16]
    exact hk
  obtain ⟨bs, hbs, hbe⟩ := Option.map_eq_some'.1 hk
  refine ⟨hk2, ?_, ?_, ?_, ?_, ?_⟩
  · rw [hexBytes_natVal _ 0 bs hbs]
    rw [← hbe]
    rfl
  · simp [upsert_embedding, hk]
  · simp [delete_vector, hk2]
  · rw [lookupStore_upsertStore, if_pos rfl]
  · refine length_upsertStore_of_mem ?_
    rw [lookupStore_upsertStore, if_pos rfl]
    simp

theorem storage_key_determinism_witness :
    fpA.data.take 16 = fpB.data.take 16 ∧
    numericId fpA = some kA ∧
    numericId fpB = some kA ∧
    hexNatAux 0 (fpA.data.take 16) = some kA ∧
    delete_vector [] fpB = some (revokeStore kA []) := by
  have h := storage_key_determinism fpA fpB [] vecE1
    ⟨fpA, "active", 0, none⟩
    (recOf fpA vecE1 fpA "active" 0 none) (recOf fpB vecE1 fpB "active" 1 none) kA
    (by decide) (by decide)
  exact ⟨by decide, by decide, h.1, h.2.1, h.2.2.2.1⟩

/-- Claim C10: for a fingerprint whose 16-character prefix is valid hex,
`delete` returns success with that fingerprint unconditionally — it never
reports NotFound — and the store afterwards is the revocation at the derived
key: the record there (if any) is marked revoked, and a never-enrolled key
leaves the store untouched. -/
theorem revoke_unconditional_success (s : Store) (fp : String) (k : ℕ)
    (hk : numericId fp = some k) :
    (delete s fp).result = .ok (true, fp) ∧
    (delete s fp).store = revokeStore k s ∧
    (∀ r, lookupStore k (delete s fp).store = some r → r.status = "revoked") ∧
    (lookupStore k s = none → (delete s fp).store = s) := by
  have hst : (delete s fp).store = revokeStore k s := by
    simp [delete, delete_vector, hk]
  refine ⟨by simp [delete, delete_vector, hk], hst, ?_, ?_⟩
  · intro r hr
    rw [hst, lookupStore_revokeStore, if_pos rfl] at hr
    obtain ⟨r0, _, hr0⟩ := Option.map_eq_some'.1 hr
    rw [← hr0]
    rfl
  · intro hnone
    rw [hst]
    exact revokeStore_of_lookup_none k s hnone

theorem revoke_unconditional_success_witness :
    numericId fpA = some kA ∧
    (delete [] fpA).result = .ok (true, fpA) ∧
    (delete ([] : Store) fpA).store = [] := by
  have h := revoke_unconditional_success [] fpA kA (by decide)
  exact ⟨by decide, h.1, by rw [h.2.2.2 (by decide)]⟩

theorem get_key_keyNotFound_iff (env : KeyEnv) (v : ℤ) :
    _get_key env v = .error (.keyNotFound v) ↔
      truthyStr (env.versionedKey v) = none ∧ truthyStr env.mainKey = none := by
  unfold _get_key
  cases h1 : truthyStr (env.versionedKey v) with
  | some s => cases h2 : hexBytes s.data <;> simp [h2]
  | none =>
    cases h2 : truthyStr env.mainKey with
    | some s => cases h3 : hexBytes s.data <;> simp [h3]
    | none => simp

theorem get_key_ok_source (env : KeyEnv) (v : ℤ) (bs : List ℕ)
    (hbs : _get_key env v = .ok bs) :
    (∃ kstr, truthyStr (env.versionedKey v) = some kstr ∧ hexBytes kstr.data = some bs) ∨
    (truthyStr (env.versionedKey v) = none ∧
       ∃ kstr, truthyStr env.mainKey = some kstr ∧ hexBytes kstr.data = some bs) := by
  unfold _get_key at hbs
  cases h1 : truthyStr (env.versionedKey v) with
  | some s =>
    rw [h1] at hbs
    dsimp only at hbs
    cases h2 : hexBytes s.data with
    | none => rw [h2] at hbs; cases hbs
    | some bs2 =>
      rw [h2] at hbs
      injection hbs with h
      exact Or.inl ⟨s, rfl, by rw [h2, h]⟩
  | none =>
    rw [h1] at hbs
    dsimp only at hbs
    cases h2 : truthyStr env.mainKey with
    | some s =>
      rw [h2] at hbs
      dsimp only at hbs
      cases h3 : hexBytes s.data with
      | none => rw [h3] at hbs; cases hbs
      | some bs2 =>
        rw [h3] at hbs
        injection hbs with h
        exact Or.inr ⟨rfl, s, rfl, by rw [h3, h]⟩
    | none => rw [h2] at hbs; cases hbs

theorem decrypt_keyNotFound_iff (P : Params) (env : KeyEnv) (payload : String)
    (pp : PayloadParts) (hp : parsePayload payload = .ok pp) :
    (decrypt_embedding P env payload).result = .error (.keyNotFound pp.version) ↔
      _get_key env pp.version = .error (.keyNotFound pp.version) := by
  unfold decrypt_embedding
  rw [hp]
  dsimp only
  cases hg : _get_key env pp.version with
  | error e => simp
  | ok key =>
    simp only
    constructor
    · intro h
      exfalso
      revert h
      split
      next iv tag ct _ =>
        split
        · simp
        next pt _ =>
          split <;> simp
      next => simp
    · intro h
      cases h

/-- Claim C5: decrypt resolves the key for exactly the payload's version:
the outcome depends only on that version's env slot and the unversioned
fallback slot (never on another version's key), a version with neither slot
truthy fails with KeyNotFound, and a resolved key comes from the version's
own slot or, when that slot is untruthy, from the unversioned fallback. -/
theorem key_version_isolation (P : Params) (env env2 : KeyEnv) (payload : String)
    (pp : PayloadParts)
    (hp : parsePayload payload = .ok pp)
    (hv : env.versionedKey pp.version = env2.versionedKey pp.version)
    (hm : env.mainKey = env2.mainKey) :
    decrypt_embedding P env payload = decrypt_embedding P env2 payload ∧
    (_get_key env pp.version = .error (.keyNotFound pp.version) ↔
       truthyStr (env.versionedKey pp.version) = none ∧ truthyStr env.mainKey = none) ∧
    ((decrypt_embedding P env payload).result = .error (.keyNotFound pp.version) ↔
       _get_key env pp.version = .error (.keyNotFound pp.version)) ∧
    (∀ bs, _get_key env pp.version = .ok bs →
       (∃ kstr, truthyStr (env.versionedKey pp.version) = some kstr ∧
          hexBytes kstr.data = some bs) ∨
       (truthyStr (env.versionedKey pp.version) = none ∧
          ∃ kstr, truthyStr env.mainKey = some kstr ∧ hexBytes kstr.data = some bs)) := by
  have hkeys : _get_key env pp.version = _get_key env2 pp.version := by
    unfold _get_key
    rw [hv, hm]
  refine ⟨?_, get_key_keyNotFound_iff env pp.version,
    decrypt_keyNotFound_iff P env payload pp hp, fun bs => get_key_ok_source env pp.version bs⟩
  unfold decrypt_embedding
  rw [hp]
  dsimp only
  rw [hkeys]

theorem key_version_isolation_witness :
    parsePayload pA = .ok ⟨1, ['a', 'a'], ['b', 'b'], ['c', 'c']⟩ ∧
    envT.versionedKey 1 = envT5.versionedKey 1 ∧
    envT.mainKey = envT5.mainKey ∧
    decrypt_embedding Ptest envT pA = decrypt_embedding Ptest envT5 pA := by
  have h := key_version_isolation Ptest envT envT5 pA ⟨1, ['a', 'a'], ['b', 'b'], ['c', 'c']⟩
    (by decide) (by decide) (by decide)
  exact ⟨by decide, by decide, by decide, h.1⟩

/-- Claim C8 (amended): the dispatch `parsePayload` actually implements.
A 3-field payload always resolves to version 1, version-like first field or
not; a 4-field payload whose first field starts with `v` takes its version
from Python `int` on the remainder (failing with an int-parse error, not
UnknownFormat, when that is not an integer); a 4-field payload whose first
field does not start with `v`, or any other field count, fails with
UnknownFormat. -/
theorem payload_dispatch_exact (payload : String) :
    (∀ a b c, splitCols payload.data = [a, b, c] →
       parsePayload payload = .ok ⟨1, a, b, c⟩) ∧
    (∀ a b c d vrest n, splitCols payload.data = [a, b, c, d] → a = 'v' :: vrest →
       pyIntOfChars vrest = some n → parsePayload payload = .ok ⟨n, b, c, d⟩) ∧
    (∀ a b c d vrest, splitCols payload.data = [a, b, c, d] → a = 'v' :: vrest →
       pyIntOfChars vrest = none →
       parsePayload payload = .error (.versionIntError (String.mk vrest))) ∧
    (∀ a b c d, splitCols payload.data = [a, b, c, d] → (∀ vrest, a ≠ 'v' :: vrest) →
       parsePayload payload = .error (.unknownFormat 4)) ∧
    ((splitCols payload.data).length ≠ 3 → (splitCols payload.data).length ≠ 4 →
       parsePayload payload = .error (.unknownFormat (splitCols payload.data).length)) := by
  refine ⟨?_, ?_, ?_, ?_, ?_⟩
  · intro a b c hs
    unfold parsePayload
    rw [hs]
  · intro a b c d vrest n hs ha hw
    unfold parsePayload
    rw [hs, ha]
    dsimp only
    split
    next w heq =>
      injection heq with h1 h2
      subst h2
      rw [hw]
    next h => exact absurd rfl (h vrest)
  · intro a b c d vrest hs ha hw
    unfold parsePayload
    rw [hs, ha]
    dsimp only
    split
    next w heq =>
      injection heq with h1 h2
      subst h2
      rw [hw]
    next h => exact absurd rfl (h vrest)
  · intro a b c d hs hnv
    unfold parsePayload
    rw [hs]
    dsimp only
    cases a with
    | nil => rfl
    | cons x xs =>
      split
      next vrest heq =>
        exact absurd heq (hnv vrest)
      next => rfl
  · intro h3 h4
    unfold parsePayload
    split
    next a b c d heq => rw [heq] at h4; simp at h4
    next a b c heq => rw [heq] at h3; simp at h3
    next parts h1 h2 => rfl

/-- Claim C8 counterexample: `"v2:aa:bb"` splits into exactly 3 fields whose
first field carries a version prefix; the claim classifies it as "every
other shape" and so demands UnknownFormat, but the code resolves it to
version 1, treating `"v2"` as the iv field. -/
theorem three_field_version_prefixed_cx :
    parsePayload "v2:aa:bb" = .ok ⟨1, ['v', '2'], ['a', 'a'], ['b', 'b']⟩ ∧
    ∃ e, parsePayload "v2:aa:bb" ≠ .error e := by
  refine ⟨by decide, .unknownFormat 3, by decide⟩

theorem payload_dispatch_exact_witness :
    splitCols ("aa:bb:cc" : String).data = [['a', 'a'], ['b', 'b'], ['c', 'c']] ∧
    parsePayload "aa:bb:cc" = .ok ⟨1, ['a', 'a'], ['b', 'b'], ['c', 'c']⟩ ∧
    splitCols ("v2:aa:bb:cc" : String).data = [['v', '2'], ['a', 'a'], ['b', 'b'], ['c', 'c']] ∧
    parsePayload "v2:aa:bb:cc" = .ok ⟨2, ['a', 'a'], ['b', 'b'], ['c', 'c']⟩ ∧
    parsePayload "a:b" = .error (.unknownFormat 2) := by
  refine ⟨by decide, ?_, by decide, ?_, ?_⟩
  · exact (payload_dispatch_exact "aa:bb:cc").1 ['a', 'a'] ['b', 'b'] ['c', 'c'] (by decide)
  · exact (payload_dispatch_exact "v2:aa:bb:cc").2.1 ['v', '2'] ['a', 'a'] ['b', 'b'] ['c', 'c']
      ['2'] 2 (by decide) (by decide) (by decide)
  · exact (payload_dispatch_exact "a:b").2.2.2.2 (by decide) (by decide)

theorem parsePayload_error_shape (payload : String) (e : CryptoError)
    (h : parsePayload payload = .error e) :
    (∃ n, e = .unknownFormat n) ∨ ∃ seg, e = .versionIntError seg := by
  unfold parsePayload at h
  split at h
  · split at h
    · split at h
      · simp at h
      · injection h with h1
        exact Or.inr ⟨_, h1.symm⟩
    · injection h with h1
      exact Or.inl ⟨4, h1.symm⟩
  · simp at h
  · injection h with h1
    exact Or.inl ⟨_, h1.symm⟩

theorem get_key_error_shape (env : KeyEnv) (v : ℤ) (e : CryptoError)
    (h : _get_key env v = .error e) :
    e = .malformedHex ∨ e = .keyNotFound v := by
  unfold _get_key at h
  split at h
  · split at h
    · simp at h
    · injection h with h1
      exact Or.inl h1.symm
  · split at h
    · split at h
      · simp at h
      · injection h with h1
        exact Or.inl h1.symm
    · injection h with h1
      exact Or.inr h1.symm

/-- Claim C7 (amended): scrubbing happens on success paths only.
`decrypt_embedding` zeroes its plaintext exactly when JSON parsing succeeds
(a deserialisation failure after decryption leaves the produced plaintext
unscrubbed), and `enroll`/`search` run `vec.fill(0)` exactly when they
return success — the DuplicateIdentity rejection and every other
post-decrypt failure path exits without zeroing the vector. -/
theorem scrub_only_on_success (P : Params) (cfg : Config) (env : KeyEnv) (s : Store)
    (now : ℕ) (ereq : EnrollRequest) (sreq : SearchRequest) (payload : String) :
    ((decrypt_embedding P env payload).plaintextScrubbed = true ↔
       ∃ emb, (decrypt_embedding P env payload).result = .ok emb) ∧
    ((decrypt_embedding P env payload).plaintextProduced = true ↔
       ((∃ emb, (decrypt_embedding P env payload).result = .ok emb) ∨
          (decrypt_embedding P env payload).result = .error .jsonError)) ∧
    ((enroll P cfg env s now ereq).vecZeroed = true ↔
       ∃ resp, (enroll P cfg env s now ereq).result = .ok resp) ∧
    ((search P cfg env s sreq).vecZeroed = true ↔
       ∃ resp, (search P cfg env s sreq).result = .ok resp) := by
  refine ⟨?_, ?_, ?_, ?_⟩
  · unfold decrypt_embedding
    split
    · simp
    · split
      · simp
      · split
        next =>
          split
          · simp
          next => split <;> simp
        next => simp
  · unfold decrypt_embedding
    split
    next e he =>
      rcases parsePayload_error_shape _ _ he with ⟨n, rfl⟩ | ⟨seg, rfl⟩ <;> simp
    · split
      next e he =>
        rcases get_key_error_shape _ _ _ he with rfl | rfl <;> simp
      · split
        next =>
          split
          · simp
          next => split <;> simp
        next => simp
  · unfold enroll
    dsimp only
    split
    · simp
    next emb hd =>
      split
      next => simp
      next =>
        split
        next dup rest hs => simp
        next hs => split <;> simp
  · unfold search
    dsimp only
    split
    · simp
    next emb hd => simp

/-! ## Evaluation helpers -/

theorem enroll_eval_of_dup (P : Params) (cfg : Config) (env : KeyEnv) (s : Store)
    (now : ℕ) (req : EnrollRequest) (emb : List ℚ) (dup : Hit) (rest : List Hit)
    (hdec : (decrypt_embedding P env req.encrypted_embedding).result = .ok emb)
    (hlen : emb.length = 128)
    (hs : search_similar P s (normalizeVec P emb) cfg.simThreshold 1 = dup :: rest) :
    enroll P cfg env s now req =
      ⟨.error (.duplicateIdentity dup.score (String.mk (dup.fingerprint.data.take 8))), s,
        some (normalizeVec P emb, cfg.simThreshold, 1), none, false,
        decrypt_embedding P env req.encrypted_embedding⟩ := by
  unfold enroll
  dsimp only
  split
  next e he => rw [hdec] at he; cases he
  next emb2 hd =>
    rw [hdec] at hd
    injection hd with hd
    subst hd
    split
    next hlen2 => exact absurd hlen hlen2
    next =>
      split
      next dup2 rest2 hs2 =>
        rw [hs] at hs2
        injection hs2 with h1 h2
        subst h1
        subst h2
        rfl
      next hs2 => rw [hs] at hs2; cases hs2

theorem enroll_eval_of_ok (P : Params) (cfg : Config) (env : KeyEnv) (s : Store)
    (now : ℕ) (req : EnrollRequest) (emb : List ℚ) (k : ℕ)
    (hdec : (decrypt_embedding P env req.encrypted_embedding).result = .ok emb)
    (hlen : emb.length = 128)
    (hs : search_similar P s (normalizeVec P emb) cfg.simThreshold 1 = [])
    (hk : numericId req.fingerprint = some k) :
    enroll P cfg env s now req =
      ⟨.ok ⟨true, req.fingerprint, 128⟩,
        upsertStore k (enrollRecord req (normalizeVec P emb) now) s,
        some (normalizeVec P emb, cfg.simThreshold, 1),
        some (req.fingerprint, normalizeVec P emb, enrollPayload req now), true,
        decrypt_embedding P env req.encrypted_embedding⟩ := by
  unfold enroll
  dsimp only
  split
  next e he => rw [hdec] at he; cases he
  next emb2 hd =>
    rw [hdec] at hd
    injection hd with hd
    subst hd
    split
    next hlen2 => exact absurd hlen hlen2
    next =>
      split
      next dup2 rest2 hs2 => rw [hs] at hs2; cases hs2
      next =>
        split
        next k2 s2 hu =>
          rw [upsert_embedding, hk] at hu
          dsimp only [Option.map] at hu
          injection hu with hu
          injection hu with hu1 hu2
          subst hu1
          subst hu2
          rfl
        next hu =>
          rw [upsert_embedding, hk] at hu
          dsimp only [Option.map] at hu
          cases hu

theorem search_eval (P : Params) (cfg : Config) (env : KeyEnv) (s : Store)
    (req : SearchRequest) (emb : List ℚ)
    (hdec : (decrypt_embedding P env req.encrypted_embedding).result = .ok emb) :
    search P cfg env s req =
      ⟨.ok ⟨decide (0 < (search_similar P s (normalizeVec P emb)
              (pyOrThreshold req.threshold cfg.simThreshold) req.top_k).length),
          search_similar P s (normalizeVec P emb)
            (pyOrThreshold req.threshold cfg.simThreshold) req.top_k⟩,
        some (normalizeVec P emb, pyOrThreshold req.threshold cfg.simThreshold, req.top_k),
        true, decrypt_embedding P env req.encrypted_embedding⟩ := by
  unfold search
  dsimp only
  split
  next e he => rw [hdec] at he; cases he
  next emb2 hd =>
    rw [hdec] at hd
    injection hd with hd
    subst hd
    rfl

theorem delete_eval (s : Store) (fp : String) (k : ℕ) (hk : numericId fp = some k) :
    delete s fp = ⟨.ok (true, fp), revokeStore k s⟩ := by
  unfold delete delete_vector
  rw [hk]
  rfl

theorem round4_one : round4 1 = 1 := by
  rw [round4]
  norm_num

theorem normalizeVec_Ptest (v : List ℚ) : normalizeVec Ptest v = v := by
  simp [normalizeVec, Ptest]

theorem enrollA_eq : enroll Ptest cfgT envT [] 0 reqA =
    ⟨.ok ⟨true, fpA, 128⟩, [(kA, recA)], some (vecE1, 1, 1),
      some (fpA, vecE1, ⟨fpA, "active", 0, none⟩), true,
      decrypt_embedding Ptest envT reqA.encrypted_embedding⟩ := by
  have h := enroll_eval_of_ok Ptest cfgT envT [] 0 reqA vecE1 kA (by decide) (by decide)
    (by rw [normalizeVec_Ptest]; rfl) (by decide)
  rw [h, normalizeVec_Ptest]
  rfl

theorem enrollResurrect_eq : enroll Ptest cfgT envT [(kA, setRevoked recA)] 7 reqA =
    ⟨.ok ⟨true, fpA, 128⟩, [(kA, recA7)], some (vecE1, 1, 1),
      some (fpA, vecE1, ⟨fpA, "active", 7, none⟩), true,
      decrypt_embedding Ptest envT reqA.encrypted_embedding⟩ := by
  have h := enroll_eval_of_ok Ptest cfgT envT [(kA, setRevoked recA)] 7 reqA vecE1 kA
    (by decide) (by decide) (by rw [normalizeVec_Ptest]; rfl) (by decide)
  rw [h, normalizeVec_Ptest]
  rfl

/-- The fixture trace enroll → revoke leaves the single record revoked. -/
theorem storeRevoked_eq :
    runOps Ptest cfgT envT [] [.opEnroll 0 reqA, .opDelete fpA]
      = [(kA, setRevoked recA)] := by
  simp only [runOps, List.foldl, stepOp]
  rw [enrollA_eq]
  dsimp only
  rw [delete_eval _ _ kA (by decide)]
  rfl

/-- The fixture trace enroll → revoke → re-enroll ends with the record at
`kA` active again. -/
theorem storeResurrected_eq :
    runOps Ptest cfgT envT [] [.opEnroll 0 reqA, .opDelete fpA, .opEnroll 7 reqA]
      = [(kA, recA7)] := by
  have hsplit : runOps Ptest cfgT envT [] [.opEnroll 0 reqA, .opDelete fpA, .opEnroll 7 reqA]
      = stepOp Ptest cfgT envT
          (runOps Ptest cfgT envT [] [.opEnroll 0 reqA, .opDelete fpA])
          (.opEnroll 7 reqA) := rfl
  rw [hsplit, storeRevoked_eq]
  simp only [stepOp]
  rw [enrollResurrect_eq]

theorem searchA7_eval : search_similar Ptest [(kA, recA7)] vecE1 1 1 = [⟨fpA, fpA, 1⟩] := by
  have h : search_similar Ptest [(kA, recA7)] vecE1 1 1 = [⟨fpA, fpA, round4 1⟩] := rfl
  rw [h, round4_one]

theorem searchA_eval : search_similar Ptest [(kA, recA)] vecE1 1 1 = [⟨fpA, fpA, 1⟩] := by
  have h : search_similar Ptest [(kA, recA)] vecE1 1 1 = [⟨fpA, fpA, round4 1⟩] := rfl
  rw [h, round4_one]

/-- Claim C2 counterexample: after enroll(reqA) then revoke(fpA) the record
at storage key `kA` is revoked, yet a later enroll of the same fingerprint
passes the anti-duplicate check (the revoked record is invisible to it) and
upserts a fresh active record at that same key: the key's record transitions
back to active. -/
theorem revoked_key_reactivated_cx :
    (lookupStore kA (runOps Ptest cfgT envT [] [.opEnroll 0 reqA, .opDelete fpA])).map
        StoreRecord.status = some "revoked" ∧
    (lookupStore kA (runOps Ptest cfgT envT []
        [.opEnroll 0 reqA, .opDelete fpA, .opEnroll 7 reqA])).map
        StoreRecord.status = some "active" := by
  rw [storeRevoked_eq, storeResurrected_eq]
  exact ⟨rfl, rfl⟩

/-- Claim C3 counterexample: after revoke(fpA) completes (second operation of
the trace), a subsequent search with fpA's own vector returns fpA again,
because the third operation re-enrolled it as a fresh active record. -/
theorem revoked_fingerprint_returned_cx :
    (search Ptest cfgT envT (runOps Ptest cfgT envT []
        [.opEnroll 0 reqA, .opDelete fpA, .opEnroll 7 reqA]) sreqA).result
      = .ok ⟨true, [⟨fpA, fpA, 1⟩]⟩ := by
  rw [storeResurrected_eq, search_eval Ptest cfgT envT [(kA, recA7)] sreqA vecE1 (by decide)]
  dsimp only
  rw [normalizeVec_Ptest]
  have hth : pyOrThreshold sreqA.threshold cfgT.simThreshold = 1 := rfl
  rw [hth]
  have htop : sreqA.top_k = 1 := rfl
  rw [htop, searchA7_eval]
  rfl

/-- Claim C4 counterexample: a search whose decrypted embedding has length 2
is not rejected; the store is queried with that 2-dimensional vector. -/
theorem search_dimension_unchecked_cx :
    (search Ptest cfgT envT [] sreqB).storeQuery = some (vecDim2, 1, 1) ∧
    vecDim2.length = 2 := by
  refine ⟨?_, by decide⟩
  rw [search_eval Ptest cfgT envT [] sreqB vecDim2 (by decide)]
  dsimp only
  rw [normalizeVec_Ptest]
  rfl

/-- Claim C6 counterexample: the request supplies threshold 0, but the
threshold handed to the store is the configured default 1, not 0: Python's
`or` discards a present-but-zero threshold. -/
theorem zero_threshold_fallback_cx :
    sreqZero.threshold = some 0 ∧
    (search Ptest cfgT envT [] sreqZero).storeQuery = some (vecE1, 1, 1) ∧
    (1 : ℚ) ≠ 0 := by
  refine ⟨rfl, ?_, by decide⟩
  rw [search_eval Ptest cfgT envT [] sreqZero vecE1 (by decide)]
  dsimp only
  rw [normalizeVec_Ptest]
  rfl

/-- Claim C7 counterexample: the enroll of `reqB` is rejected as
DuplicateIdentity (its vector is already enrolled under `reqA`), and the
handler exits without running `vec.fill(0)`: the decrypted vector is not
scrubbed on this failure path. -/
theorem duplicate_no_scrub_cx :
    (enroll Ptest cfgT envT [(kA, recA)] 5 reqB).result
      = .error (.duplicateIdentity 1 "aaaaaaaa") ∧
    (enroll Ptest cfgT envT [(kA, recA)] 5 reqB).vecZeroed = false := by
  have h := enroll_eval_of_dup Ptest cfgT envT [(kA, recA)] 5 reqB vecE1 ⟨fpA, fpA, 1⟩ []
    (by decide) (by decide) (by rw [normalizeVec_Ptest]; exact searchA_eval)
  rw [h]
  exact ⟨by rfl, rfl⟩

theorem enroll_eval_of_keyfail (P : Params) (cfg : Config) (env : KeyEnv) (s : Store)
    (now : ℕ) (req : EnrollRequest) (emb : List ℚ)
    (hdec : (decrypt_embedding P env req.encrypted_embedding).result = .ok emb)
    (hlen : emb.length = 128)
    (hs : search_similar P s (normalizeVec P emb) cfg.simThreshold 1 = [])
    (hk : numericId req.fingerprint = none) :
    enroll P cfg env s now req =
      ⟨.error (.internalErr .malformedHex), s,
        some (normalizeVec P emb, cfg.simThreshold, 1),
        some (req.fingerprint, normalizeVec P emb, enrollPayload req now), false,
        decrypt_embedding P env req.encrypted_embedding⟩ := by
  unfold enroll
  dsimp only
  split
  next e he => rw [hdec] at he; cases he
  next emb2 hd =>
    rw [hdec] at hd
    injection hd with hd
    subst hd
    split
    next hlen2 => exact absurd hlen hlen2
    next =>
      split
      next dup2 rest2 hs2 => rw [hs] at hs2; cases hs2
      next =>
        split
        next k2 s2 hu =>
          rw [upsert_embedding, hk] at hu
          cases hu
        next hu => rfl

/-- Claim C1: enroll fails with DuplicateIdentity exactly when the
anti-duplicate query — `search_similar` at the enrollment threshold with
`top_k = 1` on the normalised candidate — returns a hit, which happens
exactly when some active record scores at least the threshold; the
rejection carries only the top hit's score and the first 8 characters of
its fingerprint and leaves the store untouched; with no hit the handler
proceeds to upsert a fresh record with status `active`. -/
theorem enroll_dedup_iff (P : Params) (cfg : Config) (env : KeyEnv) (s : Store)
    (now : ℕ) (req : EnrollRequest) (emb : List ℚ)
    (hdec : (decrypt_embedding P env req.encrypted_embedding).result = .ok emb)
    (hlen : emb.length = 128) :
    (enroll P cfg env s now req).dupQuery
        = some (normalizeVec P emb, cfg.simThreshold, 1) ∧
    ((∃ sc pf, (enroll P cfg env s now req).result
        = .error (.duplicateIdentity sc pf)) ↔
      search_similar P s (normalizeVec P emb) cfg.simThreshold 1 ≠ []) ∧
    (search_similar P s (normalizeVec P emb) cfg.simThreshold 1 ≠ [] ↔
      ∃ p ∈ s, p.2.status = "active" ∧
        cfg.simThreshold ≤ P.score (normalizeVec P emb) p.2.vector) ∧
    (∀ dup rest, search_similar P s (normalizeVec P emb) cfg.simThreshold 1 = dup :: rest →
      (enroll P cfg env s now req).result
          = .error (.duplicateIdentity dup.score (String.mk (dup.fingerprint.data.take 8))) ∧
      (enroll P cfg env s now req).store = s ∧
      (enroll P cfg env s now req).upsertAttempt = none) ∧
    (search_similar P s (normalizeVec P emb) cfg.simThreshold 1 = [] →
      (enroll P cfg env s now req).upsertAttempt
          = some (req.fingerprint, normalizeVec P emb, enrollPayload req now) ∧
      (enrollPayload req now).status = "active" ∧
      ∀ k, numericId req.fingerprint = some k →
        (enroll P cfg env s now req).store
            = upsertStore k (enrollRecord req (normalizeVec P emb) now) s ∧
        (enroll P cfg env s now req).result = .ok ⟨true, req.fingerprint, 128⟩) := by
  have hne := search_similar_ne_nil_iff P s (normalizeVec P emb) cfg.simThreshold
    (n := 1) one_ne_zero
  cases hs : search_similar P s (normalizeVec P emb) cfg.simThreshold 1 with
  | cons dup rest =>
    rw [hs] at hne
    have hE := enroll_eval_of_dup P cfg env s now req emb dup rest hdec hlen hs
    rw [hE]
    refine ⟨rfl, ?_, hne, ?_, ?_⟩
    · exact ⟨fun _ => by simp, fun _ => ⟨dup.score, String.mk (dup.fingerprint.data.take 8), rfl⟩⟩
    · intro dup2 rest2 heq
      injection heq with h1 h2
      subst h1
      subst h2
      exact ⟨rfl, rfl, rfl⟩
    · intro habs
      simp at habs
  | nil =>
    rw [hs] at hne
    cases hk : numericId req.fingerprint with
    | some k =>
      have hE := enroll_eval_of_ok P cfg env s now req emb k hdec hlen hs hk
      rw [hE]
      refine ⟨rfl, by simp, hne, ?_, ?_⟩
      · intro dup2 rest2 heq
        cases heq
      · intro _
        refine ⟨rfl, rfl, fun k2 hk2 => ?_⟩
        injection hk2 with hk2
        subst hk2
        exact ⟨rfl, rfl⟩
    | none =>
      have hE := enroll_eval_of_keyfail P cfg env s now req emb hdec hlen hs hk
      rw [hE]
      refine ⟨rfl, by simp, hne, ?_, ?_⟩
      · intro dup2 rest2 heq
        cases heq
      · intro _
        refine ⟨rfl, rfl, fun k2 hk2 => ?_⟩
        cases hk2

theorem enroll_dedup_iff_witness :
    (decrypt_embedding Ptest envT reqA.encrypted_embedding).result = .ok vecE1 ∧
    vecE1.length = 128 ∧
    (enroll Ptest cfgT envT [] 0 reqA).upsertAttempt
      = some (reqA.fingerprint, normalizeVec Ptest vecE1, enrollPayload reqA 0) := by
  refine ⟨by decide, by decide, ?_⟩
  exact ((enroll_dedup_iff Ptest cfgT envT [] 0 reqA vecE1 (by decide) (by decide)).2.2.2.2
    (by rw [normalizeVec_Ptest]; rfl)).1

/-- Claim C2 (amended): revoke and search never reactivate a record, and the
only way an active record appears at a storage key whose record was revoked
is an enroll whose fingerprint derives that key: its upsert replaces the
revoked record wholesale with a freshly built record (new status, enrolled_at
and vector), rather than flipping the old record's status. -/
theorem revoked_reactivation_only_by_enroll (P : Params) (cfg : Config) (env : KeyEnv)
    (s : Store) (op : Op) (k : ℕ) (r r' : StoreRecord)
    (hk : lookupStore k s = some r) (hrev : r.status = "revoked")
    (h' : lookupStore k (stepOp P cfg env s op) = some r')
    (hact : r'.status = "active") :
    ∃ now req emb, op = .opEnroll now req ∧ numericId req.fingerprint = some k ∧
      (decrypt_embedding P env req.encrypted_embedding).result = .ok emb ∧
      r' = enrollRecord req (normalizeVec P emb) now := by
  cases op with
  | opSearch req =>
    simp only [stepOp] at h'
    rw [hk] at h'
    injection h' with h'
    rw [← h', hrev] at hact
    exact absurd hact (by decide)
  | opDelete fp =>
    simp only [stepOp] at h'
    rcases delete_store_cases s fp with heq | ⟨k2, _, heq⟩
    · rw [heq, hk] at h'
      injection h' with h'
      rw [← h', hrev] at hact
      exact absurd hact (by decide)
    · rw [heq, lookupStore_revokeStore] at h'
      by_cases h2k : k2 = k
      · rw [if_pos h2k, hk] at h'
        injection h' with h'
        rw [← h'] at hact
        simp [setRevoked] at hact
      · rw [if_neg h2k, hk] at h'
        injection h' with h'
        rw [← h', hrev] at hact
        exact absurd hact (by decide)
  | opEnroll now req =>
    simp only [stepOp] at h'
    rcases enroll_store_cases P cfg env s now req with heq | ⟨k2, emb, hk2, hdec, heq⟩
    · rw [heq, hk] at h'
      injection h' with h'
      rw [← h', hrev] at hact
      exact absurd hact (by decide)
    · rw [heq, lookupStore_upsertStore] at h'
      by_cases h2k : k2 = k
      · rw [if_pos h2k] at h'
        injection h' with h'
        exact ⟨now, req, emb, rfl, h2k ▸ hk2, hdec, h'.symm⟩
      · rw [if_neg h2k, hk] at h'
        injection h' with h'
        rw [← h', hrev] at hact
        exact absurd hact (by decide)

theorem revoked_reactivation_only_by_enroll_witness :
    lookupStore kA [(kA, setRevoked recA)] = some (setRevoked recA) ∧
    (setRevoked recA).status = "revoked" ∧
    lookupStore kA (stepOp Ptest cfgT envT [(kA, setRevoked recA)] (.opEnroll 7 reqA))
      = some recA7 ∧
    recA7.status = "active" ∧
    (∃ now req emb, Op.opEnroll 7 reqA = .opEnroll now req ∧
      numericId req.fingerprint = some kA ∧
      (decrypt_embedding Ptest envT req.encrypted_embedding).result = .ok emb ∧
      recA7 = enrollRecord req (normalizeVec Ptest emb) now) := by
  have h3 : lookupStore kA (stepOp Ptest cfgT envT [(kA, setRevoked recA)] (.opEnroll 7 reqA))
      = some recA7 := by
    simp only [stepOp]
    rw [enrollResurrect_eq]
    rfl
  exact ⟨rfl, rfl, h3, rfl,
    revoked_reactivation_only_by_enroll Ptest cfgT envT [(kA, setRevoked recA)]
      (.opEnroll 7 reqA) kA (setRevoked recA) recA7 rfl rfl h3 rfl⟩

/-- Claim C3 (amended): after revoke(fp) completes, no subsequent search
returns fp — for any query vector, threshold and top_k — as long as no
intervening enroll derives fp's storage key; an enroll at that key (such as
re-enrolling fp itself) can make fp appear in search results again. -/
theorem revoked_excluded_without_reenroll (P : Params) (cfg : Config) (env : KeyEnv)
    (s : Store) (fp : String) (k : ℕ) (ops : List Op) (q : List ℚ) (th : ℚ) (n : ℕ)
    (hk : numericId fp = some k)
    (hwf : wfStore s = true)
    (hops : ops.all (fun op => !(enrollsAtKey k op)) = true) :
    (search_similar P (runOps P cfg env (delete s fp).store ops) q th n).all
      (fun hit => !(decide (hit.fingerprint = fp))) = true := by
  have hdel : (delete s fp).store = revokeStore k s := by
    simp [delete, delete_vector, hk]
  have hwf1 : wfStore (revokeStore k s) = true := by
    rw [wfStore_iff] at hwf ⊢
    exact wf_revokeStore hwf
  have hkr1 : keyRevokedIn k (revokeStore k s) = true := by
    rw [keyRevokedIn_iff]
    exact keyRevoked_revokeStore_self k s
  rw [hdel]
  have hwf2 := wf_runOps P cfg env ops (revokeStore k s) hwf1
  have hkr2 := keyRevoked_runOps P cfg env k ops (revokeStore k s) hkr1 hops
  rw [List.all_eq_true]
  intro hit hmem
  simp only [Bool.not_eq_true', decide_eq_false_iff_not]
  intro hfp
  obtain ⟨p, hp, hact, _, hform⟩ := mem_search_similar hmem
  rw [hform] at hfp
  dsimp only at hfp
  have hkey := wfStore_iff.1 hwf2 p hp
  rw [hfp, hk] at hkey
  injection hkey with hkey
  have hrev := keyRevokedIn_iff.1 hkr2 p hp hkey.symm
  rw [hact] at hrev
  exact absurd hrev (by decide)

theorem revoked_excluded_without_reenroll_witness :
    numericId fpA = some kA ∧
    wfStore [(kA, recA)] = true ∧
    ([Op.opSearch sreqA, Op.opDelete fpB].all
      (fun op => !(enrollsAtKey kA op))) = true ∧
    (search_similar Ptest
        (runOps Ptest cfgT envT (delete [(kA, recA)] fpA).store
          [Op.opSearch sreqA, Op.opDelete fpB])
        vecE1 1 1).all
      (fun hit => !(decide (hit.fingerprint = fpA))) = true := by
  exact ⟨by decide, by decide, by decide,
    revoked_excluded_without_reenroll Ptest cfgT envT [(kA, recA)] fpA kA
      [Op.opSearch sreqA, Op.opDelete fpB] vecE1 1 1 (by decide) (by decide) (by decide)⟩

/-- Claim C4 (amended): the 128-dimension gate exists only in enroll — a
decrypted embedding of any other length is rejected there with
DimensionMismatch before the anti-duplicate query or upsert runs and the
store is untouched — while search performs no dimension check at all: it
normalises the decrypted embedding (normalisation preserves length) and
queries the store with it whatever its length. -/
theorem dimension_gate_enroll_only (P : Params) (cfg : Config) (env : KeyEnv)
    (s : Store) (now : ℕ) (ereq : EnrollRequest) (sreq : SearchRequest)
    (emb1 emb2 : List ℚ)
    (h1 : (decrypt_embedding P env ereq.encrypted_embedding).result = .ok emb1)
    (h2 : (decrypt_embedding P env sreq.encrypted_embedding).result = .ok emb2) :
    (emb1.length ≠ 128 →
       (enroll P cfg env s now ereq).result = .error (.dimensionMismatch emb1.length) ∧
       (enroll P cfg env s now ereq).store = s ∧
       (enroll P cfg env s now ereq).dupQuery = none ∧
       (enroll P cfg env s now ereq).upsertAttempt = none) ∧
    (search P cfg env s sreq).storeQuery =
      some (normalizeVec P emb2, pyOrThreshold sreq.threshold cfg.simThreshold, sreq.top_k) ∧
    (normalizeVec P emb2).length = emb2.length := by
  refine ⟨?_, ?_, ?_⟩
  · intro hlen
    unfold enroll
    dsimp only
    split
    next e he => rw [h1] at he; cases he
    next emb hd =>
      rw [h1] at hd
      injection hd with hd
      subst hd
      split
      next => exact ⟨rfl, rfl, rfl, rfl⟩
      next hlen2 => exact absurd hlen hlen2
  · rw [search_eval P cfg env s sreq emb2 h2]
  · unfold normalizeVec
    dsimp only
    split
    · rw [List.length_map]
    · rfl

theorem dimension_gate_enroll_only_witness :
    (decrypt_embedding Ptest envT reqDim.encrypted_embedding).result = .ok vecDim2 ∧
    (decrypt_embedding Ptest envT sreqA.encrypted_embedding).result = .ok vecE1 ∧
    vecDim2.length = 2 ∧
    (enroll Ptest cfgT envT [] 0 reqDim).result = .error (.dimensionMismatch vecDim2.length) ∧
    (enroll Ptest cfgT envT [] 0 reqDim).upsertAttempt = none ∧
    (search Ptest cfgT envT [] sreqA).storeQuery =
      some (normalizeVec Ptest vecE1, pyOrThreshold sreqA.threshold cfgT.simThreshold,
        sreqA.top_k) := by
  have h := dimension_gate_enroll_only Ptest cfgT envT [] 0 reqDim sreqA vecDim2 vecE1
    (by decide) (by decide)
  exact ⟨by decide, by decide, by decide, (h.1 (by decide)).1, (h.1 (by decide)).2.2.2, h.2.1⟩

/-- Claim C6 (amended): the threshold handed to the store is the
caller-supplied one whenever it is present and nonzero; a missing threshold
and a threshold of exactly 0 both fall back to the configured default,
because the handler uses Python `or` rather than a None-check. -/
theorem search_threshold_choice (P : Params) (cfg : Config) (env : KeyEnv)
    (s : Store) (req : SearchRequest) (emb : List ℚ)
    (hdec : (decrypt_embedding P env req.encrypted_embedding).result = .ok emb) :
    (search P cfg env s req).storeQuery =
      some (normalizeVec P emb, pyOrThreshold req.threshold cfg.simThreshold, req.top_k) ∧
    (∀ t, req.threshold = some t → t ≠ 0 →
       pyOrThreshold req.threshold cfg.simThreshold = t) ∧
    (req.threshold = none →
       pyOrThreshold req.threshold cfg.simThreshold = cfg.simThreshold) ∧
    (req.threshold = some 0 →
       pyOrThreshold req.threshold cfg.simThreshold = cfg.simThreshold) := by
  refine ⟨?_, ?_, ?_, ?_⟩
  · rw [search_eval P cfg env s req emb hdec]
  · intro t ht hne
    rw [ht]
    simp [pyOrThreshold, hne]
  · intro ht
    rw [ht]
    rfl
  · intro ht
    rw [ht]
    simp [pyOrThreshold]

theorem search_threshold_choice_witness :
    (decrypt_embedding Ptest envT sreqTwo.encrypted_embedding).result = .ok vecE1 ∧
    sreqTwo.threshold = some 2 ∧
    (2 : ℚ) ≠ 0 ∧
    pyOrThreshold sreqTwo.threshold cfgT.simThreshold = 2 ∧
    (search Ptest cfgT envT [] sreqTwo).storeQuery =
      some (normalizeVec Ptest vecE1, pyOrThreshold sreqTwo.threshold cfgT.simThreshold,
        sreqTwo.top_k) := by
  have h := search_threshold_choice Ptest cfgT envT [] sreqTwo vecE1 (by decide)
  exact ⟨by decide, rfl, by decide, h.2.1 2 rfl (by decide), h.1⟩
